import Mathlib

/-!
Verification of the hybrid vector-search application (`app.py`): a shallow
embedding of its retrieval-and-reranking pipeline, startup collection
initialization, and the Turkish-aware normalization, stemming and synonym
expansion helpers.  Python floats are modelled by exact rationals (`ℚ`),
Python ints by `ℤ`/`ℕ`, Python strings by `String`, Python sets of strings
by `Finset String`, and exceptions by `Except`.
-/

/-- Python's builtin `round` (as applied via `int(round(x))` in the code):
round half to even ("banker's rounding"), modelled over `ℚ`. -/
def pyRound (q : ℚ) : ℤ :=
  if q - ⌊q⌋ < 1/2 then ⌊q⌋
  else if 1/2 < q - ⌊q⌋ then ⌊q⌋ + 1
  else if ⌊q⌋ % 2 = 0 then ⌊q⌋ else ⌊q⌋ + 1

/-- Similarity post-processing from `search` (app.py lines 245-251): a raw
metric value already in `[0,1]` is taken as cosine similarity; otherwise it
is treated as a distance and converted via `max(0.0, min(1.0, 1.0 - raw))`. -/
def simOfRaw (raw : ℚ) : ℚ :=
  if 0 ≤ raw ∧ raw ≤ 1 then raw
  else max 0 (min 1 (1 - raw))

/-- `score_percent = int(round(similarity * 100))` (app.py line 252). -/
def scorePercent (raw : ℚ) : ℤ :=
  pyRound (simOfRaw raw * 100)

/-- Label assignment from `final_score` (app.py lines 297-304; the identical
initial labelling at lines 259-266 uses the same thresholds). -/
def labelOf (n : ℤ) : String :=
  if 85 ≤ n then "🔵 Çok benzer"
  else if 70 ≤ n then "🟢 Benzer"
  else if 60 ≤ n then "🟡 Kısmen benzer"
  else "⚪ Düşük benzerlik"

/-! ### Turkish-aware normalization, stemming, synonym expansion
(app.py lines 24-80). -/

/-- The `TR_MAP` character-substitution table (app.py lines 25-32), applied
per character by `str.translate`. -/
def trMapChar (c : Char) : Char :=
  if c = 'ı' then 'i'
  else if c = 'İ' then 'i'
  else if c = 'I' then 'i'
  else if c = 'ş' then 's'
  else if c = 'Ş' then 's'
  else if c = 'ğ' then 'g'
  else if c = 'Ğ' then 'g'
  else if c = 'ü' then 'u'
  else if c = 'Ü' then 'u'
  else if c = 'ö' then 'o'
  else if c = 'Ö' then 'o'
  else if c = 'ç' then 'c'
  else if c = 'Ç' then 'c'
  else c

/-- Python `str.lower`, per character, on the alphabet this application
handles (ASCII and the Turkish letters of `TR_MAP`).  Note Python lowercases
the dotted capital İ to the two-character sequence `i` + combining dot above,
which is modelled faithfully. -/
def pyLowerChar (c : Char) : List Char :=
  if c = 'İ' then ['i', '̇']
  else if c = 'Ş' then ['ş']
  else if c = 'Ğ' then ['ğ']
  else if c = 'Ü' then ['ü']
  else if c = 'Ö' then ['ö']
  else if c = 'Ç' then ['ç']
  else if 'A' ≤ c ∧ c ≤ 'Z' then [Char.ofNat (c.toNat + 32)]
  else [c]

/-- `_normalize_text` (app.py lines 34-36): lowercase, then apply `TR_MAP`. -/
def _normalize_text (s : String) : String :=
  ⟨((s.data.map pyLowerChar).flatten).map trMapChar⟩

/-- The regex word class `\w` of `re.findall(r"\w+", ...)`, on the
post-normalization alphabet: alphanumeric or underscore. -/
def isWordChar (c : Char) : Bool :=
  c.isAlphanum || c == '_'

/-- Splits a character list into the maximal runs of word characters, i.e.
the semantics of `re.findall(r"\w+", s)`; `acc` holds the current run,
reversed. -/
def wordsAux : List Char → List Char → List String
  | [], acc => if acc.isEmpty then [] else [⟨acc.reverse⟩]
  | c :: cs, acc =>
    if isWordChar c then wordsAux cs (c :: acc)
    else if acc.isEmpty then wordsAux cs []
    else ⟨acc.reverse⟩ :: wordsAux cs []

/-- `_tokenize_words` (app.py lines 38-39). -/
def _tokenize_words (s : String) : List String :=
  wordsAux (_normalize_text s).data []

/-- `_SUFFIXES` (app.py lines 42-53), in source order. -/
def _SUFFIXES : List String :=
  ["leri", "lari", "nin", "nın", "nun", "nün",
   "dan", "den", "tan", "ten",
   "lar", "ler",
   "dır", "dir", "dur", "dür",
   "tir", "tır", "tur", "tür",
   "da", "de", "ta", "te",
   "ya", "ye", "na", "ne",
   "yı", "yi", "yu", "yü",
   "in", "ın", "un", "ün",
   "a", "e", "i", "ı", "u", "ü"]

/-- Stable insertion (descending by `key`): `x` is placed after every
element of strictly greater key and before the first element of key `≤ key x`.
Together with `sortKeyDesc` this models Python's stable
`sorted(..., key=..., reverse=True)`. -/
def insKey (key : α → ℤ) (x : α) : List α → List α
  | [] => [x]
  | y :: ys => if key x < key y then y :: insKey key x ys else x :: y :: ys

/-- Stable sort, descending by `key` (insertion sort). -/
def sortKeyDesc (key : α → ℤ) : List α → List α
  | [] => []
  | x :: xs => insKey key x (sortKeyDesc key xs)

/-- The guard of `_stem`'s loop (app.py line 58):
`t.endswith(suf) and len(t) - len(suf) >= 3`. -/
def validStrip (t s : String) : Bool :=
  s.data.isSuffixOf t.data && decide (3 ≤ t.length - s.length)

/-- `t[: -len(suf)]` (app.py line 59). -/
def stripSuf (t s : String) : String :=
  ⟨t.data.take (t.data.length - s.data.length)⟩

/-- `_stem` (app.py lines 55-60): try the suffixes sorted by length,
longest first, and strip the first one whose guard holds. -/
def _stem (t : String) : String :=
  match (sortKeyDesc (fun s => (s.length : ℤ)) _SUFFIXES).find? (validStrip t) with
  | some s => stripSuf t s
  | none => t

/-- `norm_tokens` (app.py lines 62-64): tokenize, stem, keep the tokens of
length `> 2`, as a set. -/
def norm_tokens (s : String) : Finset String :=
  (((_tokenize_words s).map _stem).toFinset).filter (fun t => 2 < t.length)

/-- The `SYNONYMS` table (app.py lines 67-74), as a lookup with default `∅`
(`SYNONYMS.get(t, set())`). -/
def SYNONYMS (t : String) : Finset String :=
  if t = "doktor" then {"doktor", "hekim", "dr"}
  else if t = "hekim" then {"doktor", "hekim"}
  else if t = "disci" then {"dis", "hekimi", "dishekimi"}
  else if t = "psikiyatr" then
    {"psikiyatr", "psikiyatrist", "psikoloji", "psikolojik", "ruhsagligi", "mental"}
  else if t = "psikiyatrist" then
    {"psikiyatr", "psikiyatrist", "psikoloji", "psikolojik", "ruhsagligi", "mental"}
  else if t = "cerrah" then {"cerrah", "cerrahi", "ameliyat", "operasyon"}
  else ∅

/-- `expand_query_terms` (app.py lines 76-80): the query tokens, together
with the stemmed members of each query token's synonym entry. -/
def expand_query_terms (q : Finset String) : Finset String :=
  q ∪ q.biUnion (fun t => (SYNONYMS t).image _stem)

/-! ### The search pipeline (app.py lines 217-318). -/

/-- One raw candidate from the ANN search: the store's raw metric value
(`item.distance`) and the two output fields. -/
structure Hit where
  distance : ℚ
  text : String
  filename : String
deriving DecidableEq

/-- One result row as built by `search` (the formatted `score` string
`f"{n}%"` is presentation-only and derived from `scoreNum`, so it is not
carried separately). -/
structure Candidate where
  filename : String
  text : String
  scoreNum : ℤ
  label : String
  overlap : ℤ
  finalScore : ℤ
deriving DecidableEq

/-- The first pass over a hit (app.py lines 244-276): similarity
normalization, `score_percent`, initial label. `overlap` and `finalScore`
are populated by the re-rank pass. -/
def initialCandidate (h : Hit) : Candidate :=
  let sp := scorePercent h.distance
  { filename := h.filename, text := h.text, scoreNum := sp,
    label := labelOf sp, overlap := 0, finalScore := 0 }

/-- `overlap_pct` (app.py lines 285-287): share of the expanded query tokens
found among the candidate's tokens, as a rounded percentage; `0` when the
expanded query set is empty. -/
def overlapPct (qExp tToks : Finset String) : ℤ :=
  let cnt : ℕ := (qExp ∩ tToks).card
  let ratio : ℚ := if qExp.card = 0 then 0 else (cnt : ℚ) / (qExp.card : ℚ)
  pyRound (ratio * 100)

/-- `final_score = int(round(0.6 * score_num + 0.4 * overlap_pct))`
(app.py lines 291-292); `0.6` and `0.4` as exact rationals. -/
def blendScore (scoreNum op : ℤ) : ℤ :=
  pyRound ((3/5 : ℚ) * scoreNum + (2/5 : ℚ) * op)

/-- The re-rank pass over one result row (app.py lines 283-304). -/
def rerankCandidate (qExp : Finset String) (r : Candidate) : Candidate :=
  let tToks := norm_tokens r.text
  let op := overlapPct qExp tToks
  let fs := blendScore r.scoreNum op
  { r with overlap := op, finalScore := fs, scoreNum := fs, label := labelOf fs }

/-- Threshold filter, top-5 fallback and final sort (app.py lines 309-316):
keep `final_score >= 50`; if nothing survives, take the best 5 of all
results; sort descending by `final_score` (Python's `sorted` is stable). -/
def thresholdFallback (results : List Candidate) : List Candidate :=
  let filtered := results.filter (fun r => decide (50 ≤ r.finalScore))
  let surviving :=
    if filtered.isEmpty then (sortKeyDesc (fun r => r.finalScore) results).take 5
    else filtered
  sortKeyDesc (fun r => r.finalScore) surviving

/-- The pure post-processing of `search` (app.py lines 241-316): one inner
hit list per query vector (the route issues exactly one query vector). -/
def processHits (query : String) (res : List (List Hit)) : List Candidate :=
  let results := res.flatten.map initialCandidate
  let qTokens := norm_tokens query
  let qExpanded := expand_query_terms qTokens
  thresholdFallback (results.map (rerankCandidate qExpanded))

/-- The outcome of the `/search` route: a redirect (empty query) or a
rendered result page. -/
inductive SearchResponse where
  | redirect : SearchResponse
  | page : List Candidate → SearchResponse
deriving DecidableEq

/-- The `/search` route (app.py lines 217-318).  The embedder call, the
collection load and the ANN search can each raise; the route body has no
handler, so an exception propagates out of the route (modelled by `Except`
bind). -/
def searchRoute (embedQuery : String → Except String (List ℚ))
    (loadCollection : Except String Unit)
    (annSearch : List ℚ → Except String (List (List Hit)))
    (query : String) : Except String SearchResponse :=
  if query = "" then Except.ok SearchResponse.redirect
  else
    match embedQuery query with
    | Except.error e => Except.error e
    | Except.ok vec =>
      match loadCollection with
      | Except.error e => Except.error e
      | Except.ok _ =>
        match annSearch vec with
        | Except.error e => Except.error e
        | Except.ok res => Except.ok (SearchResponse.page (processHits query res))

/-! ### Startup collection initialization (app.py lines 109-160). -/

/-- A persisted document: `vector`, `text`, `filename` (`id` is
store-assigned and irrelevant here). -/
structure MilvusDocument where
  vector : List ℚ
  text : String
  filename : String
deriving DecidableEq

/-- The persisted collection: its declared vector dimension and its
documents. -/
structure Collection where
  dim : ℕ
  docs : List MilvusDocument
deriving DecidableEq

/-- `VECTOR_DIM` (app.py line 113). -/
def VECTOR_DIM : ℕ := 768

/-- Python `str.strip()` on ASCII whitespace. -/
def pyStrip (s : String) : String :=
  ⟨((s.data.dropWhile Char.isWhitespace).reverse.dropWhile Char.isWhitespace).reverse⟩

/-- The module-level startup block (app.py lines 124-160): if no collection
exists, create one with dimension `VECTOR_DIM` and, when `initial_data.txt`
exists, seed it with one document per non-blank stripped line; an existing
collection is left untouched. -/
def startupInit (embedDoc : String → List ℚ) (existing : Option Collection)
    (seedFile : Option (List String)) : Collection :=
  match existing with
  | some c => c
  | none =>
    let docs :=
      match seedFile with
      | none => []
      | some rawLines =>
        let lines := (rawLines.map pyStrip).filter (fun l => l != "")
        lines.map (fun line =>
          { vector := embedDoc line, text := line, filename := "initial_data.txt" })
    { dim := VECTOR_DIM, docs := docs }

/-- A candidate carrying a given `final_score`, for concrete evaluations of
the threshold/fallback stage. -/
def mkCand (n : ℤ) : Candidate :=
  { filename := "f", text := "t", scoreNum := n, label := labelOf n,
    overlap := 0, finalScore := n }

/-- A persisted collection declared with dimension 512 holding one document,
as left behind by an earlier 512-dimensional embedder configuration. -/
def coll512 : Collection :=
  { dim := 512,
    docs := [{ vector := [], text := "eski belge", filename := "initial_data.txt" }] }

/-! ### Helper lemmas. -/

/-- `pyRound` never exceeds an integer bound that the argument respects. -/
theorem pyRound_le (q : ℚ) (b : ℤ) (h : q ≤ (b : ℚ)) : pyRound q ≤ b := by
  have hfl : ⌊q⌋ ≤ b := by
    have h1 : (⌊q⌋ : ℚ) ≤ (b : ℚ) := le_trans (Int.floor_le q) h
    exact_mod_cast h1
  have hflq : (⌊q⌋ : ℚ) ≤ q := Int.floor_le q
  unfold pyRound
  split_ifs with h1 h2 h3
  · exact hfl
  · have hlt : ⌊q⌋ < b := by
      have : (⌊q⌋ : ℚ) < (b : ℚ) := by linarith
      exact_mod_cast this
    omega
  · exact hfl
  · have hlt : ⌊q⌋ < b := by
      have h4 : (1 : ℚ)/2 ≤ q - ⌊q⌋ := le_of_not_lt h1
      have : (⌊q⌋ : ℚ) < (b : ℚ) := by linarith
      exact_mod_cast this
    omega

/-- `pyRound` respects integer lower bounds of its argument. -/
theorem le_pyRound (q : ℚ) (a : ℤ) (h : (a : ℚ) ≤ q) : a ≤ pyRound q := by
  have hfl : a ≤ ⌊q⌋ := Int.le_floor.mpr h
  unfold pyRound
  split_ifs <;> omega

/-- Membership is preserved by `insKey`. -/
theorem mem_insKey (key : α → ℤ) (x : α) (l : List α) (a : α) :
    a ∈ insKey key x l ↔ a = x ∨ a ∈ l := by
  induction l with
  | nil => simp [insKey]
  | cons y ys ih =>
    simp only [insKey]
    split
    · simp only [List.mem_cons, ih]
      tauto
    · simp only [List.mem_cons]

/-- Membership is preserved by `sortKeyDesc`. -/
theorem mem_sortKeyDesc (key : α → ℤ) (l : List α) (a : α) :
    a ∈ sortKeyDesc key l ↔ a ∈ l := by
  induction l with
  | nil => simp [sortKeyDesc]
  | cons x xs ih => simp [sortKeyDesc, mem_insKey, ih]

/-- `insKey` preserves descending sortedness. -/
theorem sorted_insKey (key : α → ℤ) (x : α) (l : List α)
    (h : l.Pairwise (fun a b => key b ≤ key a)) :
    (insKey key x l).Pairwise (fun a b => key b ≤ key a) := by
  induction l with
  | nil => simp [insKey]
  | cons y ys ih =>
    rcases List.pairwise_cons.mp h with ⟨hy, hys⟩
    simp only [insKey]
    split
    · rename_i hlt
      refine List.pairwise_cons.mpr ⟨?_, ih hys⟩
      intro b hb
      rcases (mem_insKey key x ys b).mp hb with rfl | hb
      · omega
      · exact hy b hb
    · rename_i hge
      refine List.pairwise_cons.mpr ⟨?_, h⟩
      intro b hb
      rcases List.mem_cons.mp hb with rfl | hb
      · omega
      · have := hy b hb
        omega

/-- `sortKeyDesc` sorts descending by `key`. -/
theorem sorted_sortKeyDesc (key : α → ℤ) (l : List α) :
    (sortKeyDesc key l).Pairwise (fun a b => key b ≤ key a) := by
  induction l with
  | nil => simp [sortKeyDesc]
  | cons x xs ih => exact sorted_insKey key x _ ih

/-- On a list sorted descending by `key`, `find?` returns a satisfying
element of maximal key. -/
theorem find?_key_max (key : α → ℤ) (p : α → Bool) (l : List α)
    (hs : l.Pairwise (fun a b => key b ≤ key a)) (s : α)
    (hf : l.find? p = some s) :
    s ∈ l ∧ p s = true ∧ ∀ s' ∈ l, p s' = true → key s' ≤ key s := by
  induction l with
  | nil => simp at hf
  | cons x xs ih =>
    rcases List.pairwise_cons.mp hs with ⟨hx, hxs⟩
    by_cases hpx : p x = true
    · rw [List.find?_cons_of_pos _ hpx] at hf
      cases hf
      refine ⟨List.mem_cons_self _ _, hpx, ?_⟩
      intro s' hs' hps'
      rcases List.mem_cons.mp hs' with rfl | hs'
      · exact le_refl _
      · exact hx s' hs'
    · rw [List.find?_cons_of_neg _ hpx] at hf
      obtain ⟨hmem, hp, hmax⟩ := ih hxs hf
      refine ⟨List.mem_cons_of_mem _ hmem, hp, ?_⟩
      intro s' hs' hps'
      rcases List.mem_cons.mp hs' with rfl | hs'
      · exact absurd hps' hpx
      · exact hmax s' hs' hps'

/-- `insKey` grows the length by one. -/
theorem length_insKey (key : α → ℤ) (x : α) (l : List α) :
    (insKey key x l).length = l.length + 1 := by
  induction l with
  | nil => rfl
  | cons y ys ih =>
    simp only [insKey]
    split
    · simp [ih]
    · simp

/-- `sortKeyDesc` preserves length. -/
theorem length_sortKeyDesc (key : α → ℤ) (l : List α) :
    (sortKeyDesc key l).length = l.length := by
  induction l with
  | nil => rfl
  | cons x xs ih => simp [sortKeyDesc, length_insKey, ih]

/-- Stability of `insKey` on one key class: inserting `x` puts it before
every element of key `≤ key x`, in particular before every element of equal
key, and the walked-over prefix holds only strictly greater keys. -/
theorem filter_insKey (key : α → ℤ) (x : α) (l : List α) (v : ℤ) :
    (insKey key x l).filter (fun a => decide (key a = v)) =
      if key x = v then x :: l.filter (fun a => decide (key a = v))
      else l.filter (fun a => decide (key a = v)) := by
  induction l with
  | nil =>
    simp only [insKey, List.filter]
    by_cases hx : key x = v <;> simp [hx]
  | cons y ys ih =>
    simp only [insKey]
    split
    · rename_i hlt
      by_cases hx : key x = v
      · have hy : ¬ (key y = v) := by omega
        simp [List.filter_cons, hx, hy, ih]
      · by_cases hy : key y = v <;> simp [List.filter_cons, hx, hy, ih]
    · by_cases hx : key x = v <;> simp [List.filter_cons, hx]

/-- Stability of `sortKeyDesc`: each key class keeps its original order. -/
theorem filter_sortKeyDesc (key : α → ℤ) (l : List α) (v : ℤ) :
    (sortKeyDesc key l).filter (fun a => decide (key a = v)) =
      l.filter (fun a => decide (key a = v)) := by
  induction l with
  | nil => rfl
  | cons x xs ih =>
    simp only [sortKeyDesc, filter_insKey, ih]
    by_cases hx : key x = v <;> simp [List.filter_cons, hx]

/-- The length of a stripped stem. -/
theorem length_stripSuf (t s : String) :
    (stripSuf t s).length = min (t.length - s.length) t.length := by
  have h : (stripSuf t s).length =
      (t.data.take (t.data.length - s.data.length)).length := rfl
  rw [h, List.length_take]
  rfl

/-- C3: For every raw metric value `r` returned by the store, if `0 ≤ r ≤ 1`
the post-processed similarity equals `r` exactly, otherwise it equals
`clamp(1 - r, 0, 1)`; and the conversion is idempotent on values already in
`[0,1]`. -/
theorem simOfRaw_spec (r : ℚ) :
    (0 ≤ r ∧ r ≤ 1 → simOfRaw r = r) ∧
    (¬ (0 ≤ r ∧ r ≤ 1) → simOfRaw r = max 0 (min 1 (1 - r))) ∧
    (0 ≤ r ∧ r ≤ 1 → simOfRaw (simOfRaw r) = simOfRaw r) := by
  refine ⟨fun h => ?_, fun h => ?_, fun h => ?_⟩
  · simp [simOfRaw, h]
  · simp [simOfRaw, h]
  · simp [simOfRaw, h]

theorem simOfRaw_spec_witness :
    simOfRaw (1/2) = 1/2 ∧
    simOfRaw 2 = max 0 (min 1 (1 - 2)) ∧
    simOfRaw (simOfRaw (1/2)) = simOfRaw (1/2) :=
  ⟨(simOfRaw_spec (1/2)).1 (by norm_num),
    (simOfRaw_spec 2).2.1 (by norm_num),
    (simOfRaw_spec (1/2)).2.2 (by norm_num)⟩

/-- C4: for every `final_score` in `[0,100]` the label assignment is total and
the four bands are non-overlapping, with inclusive lower boundaries at 85
("very similar" / "Çok benzer"), 70 ("similar" / "Benzer"), 60 ("partially
similar" / "Kısmen benzer"), and everything below 60 labelled
"low similarity" / "Düşük benzerlik". -/
theorem labelOf_bands (n : ℤ) (h0 : 0 ≤ n) (h100 : n ≤ 100) :
    (labelOf n = "🔵 Çok benzer" ∨ labelOf n = "🟢 Benzer" ∨
      labelOf n = "🟡 Kısmen benzer" ∨ labelOf n = "⚪ Düşük benzerlik") ∧
    (labelOf n = "🔵 Çok benzer" ↔ 85 ≤ n) ∧
    (labelOf n = "🟢 Benzer" ↔ 70 ≤ n ∧ n < 85) ∧
    (labelOf n = "🟡 Kısmen benzer" ↔ 60 ≤ n ∧ n < 70) ∧
    (labelOf n = "⚪ Düşük benzerlik" ↔ n < 60) := by
  unfold labelOf
  rcases le_or_lt 85 n with h85 | h85
  · rw [if_pos h85]
    refine ⟨Or.inl rfl, ?_, ?_, ?_, ?_⟩ <;>
      constructor <;> intro hx <;> first | rfl | exact h85 | omega | simp at hx
  · rw [if_neg (by omega)]
    rcases le_or_lt 70 n with h70 | h70
    · rw [if_pos h70]
      refine ⟨Or.inr (Or.inl rfl), ?_, ?_, ?_, ?_⟩ <;>
        constructor <;> intro hx <;> first | rfl | exact ⟨h70, h85⟩ | omega | simp at hx
    · rw [if_neg (by omega)]
      rcases le_or_lt 60 n with h60 | h60
      · rw [if_pos h60]
        refine ⟨Or.inr (Or.inr (Or.inl rfl)), ?_, ?_, ?_, ?_⟩ <;>
          constructor <;> intro hx <;> first | rfl | exact ⟨h60, h70⟩ | omega | simp at hx
      · rw [if_neg (by omega)]
        refine ⟨Or.inr (Or.inr (Or.inr rfl)), ?_, ?_, ?_, ?_⟩ <;>
          constructor <;> intro hx <;> first | rfl | exact h60 | omega | simp at hx

theorem labelOf_bands_witness :
    (labelOf 72 = "🔵 Çok benzer" ∨ labelOf 72 = "🟢 Benzer" ∨
      labelOf 72 = "🟡 Kısmen benzer" ∨ labelOf 72 = "⚪ Düşük benzerlik") ∧
    (labelOf 72 = "🔵 Çok benzer" ↔ (85:ℤ) ≤ 72) ∧
    (labelOf 72 = "🟢 Benzer" ↔ (70:ℤ) ≤ 72 ∧ (72:ℤ) < 85) ∧
    (labelOf 72 = "🟡 Kısmen benzer" ↔ (60:ℤ) ≤ 72 ∧ (72:ℤ) < 70) ∧
    (labelOf 72 = "⚪ Düşük benzerlik" ↔ (72:ℤ) < 60) :=
  labelOf_bands 72 (by decide) (by decide)

/-- C5: `_stem` strips suffixes from the closed table `_SUFFIXES`
longest-suffix-first and only when the remaining stem keeps length ≥ 3:
whenever some table suffix validly strips, the stripped suffix is one of
maximal length among the valid ones, and when none does the token is
unchanged; in particular `_stem "kitaplar"` strips the plural suffix "lar"
yielding "kitap" of length ≥ 3, while `_stem "ev"` (length 2) is unchanged
because no strip passes the minimum-remaining-length guard. -/
theorem stem_spec :
    (∀ t : String, (∀ s ∈ _SUFFIXES, validStrip t s = false) → _stem t = t) ∧
    (∀ t s₀ : String, s₀ ∈ _SUFFIXES → validStrip t s₀ = true →
      ∃ s ∈ _SUFFIXES, validStrip t s = true ∧ _stem t = stripSuf t s ∧
        ∀ s' ∈ _SUFFIXES, validStrip t s' = true → s'.length ≤ s.length) ∧
    (∀ t : String, _stem t = t ∨ 3 ≤ (_stem t).length) ∧
    (_stem ("kitaplar") = "kitap" ∧ ("lar") ∈ _SUFFIXES ∧
      validStrip ("kitaplar") ("lar") = true ∧ 3 ≤ ("kitap").length) ∧
    (_stem ("ev") = "ev" ∧ ("ev").length = 2 ∧
      ∀ s ∈ _SUFFIXES, validStrip ("ev") s = false) := by
  have hmem : ∀ x : String,
      x ∈ sortKeyDesc (fun s => (s.length : ℤ)) _SUFFIXES ↔ x ∈ _SUFFIXES :=
    fun x => mem_sortKeyDesc _ _ x
  refine ⟨?_, ?_, ?_, by decide, by decide⟩
  · intro t h
    have hnone :
        (sortKeyDesc (fun s => (s.length : ℤ)) _SUFFIXES).find? (validStrip t)
          = none := by
      rw [List.find?_eq_none]
      intro x hx
      simp [h x ((hmem x).mp hx)]
    simp [_stem, hnone]
  · intro t s₀ hs₀ hv
    cases hfind :
        (sortKeyDesc (fun s => (s.length : ℤ)) _SUFFIXES).find? (validStrip t) with
    | none =>
      exact absurd hv (by simpa using List.find?_eq_none.mp hfind s₀ ((hmem s₀).mpr hs₀))
    | some s =>
      obtain ⟨hsmem, hps, hmax⟩ :=
        find?_key_max (fun s => (s.length : ℤ)) (validStrip t) _
          (sorted_sortKeyDesc _ _) s hfind
      refine ⟨s, (hmem s).mp hsmem, hps, by simp [_stem, hfind], ?_⟩
      intro s' hs' hv'
      exact_mod_cast hmax s' ((hmem s').mpr hs') hv'
  · intro t
    cases hfind :
        (sortKeyDesc (fun s => (s.length : ℤ)) _SUFFIXES).find? (validStrip t) with
    | none => exact Or.inl (by simp [_stem, hfind])
    | some s =>
      refine Or.inr ?_
      have hps := List.find?_some hfind
      have hguard : 3 ≤ t.length - s.length := by
        have := (Bool.and_eq_true _ _).mp hps
        exact of_decide_eq_true this.2
      have hstem : _stem t = stripSuf t s := by simp [_stem, hfind]
      rw [hstem, length_stripSuf]
      omega

theorem stem_spec_witness :
    ∃ s ∈ _SUFFIXES, validStrip ("kitaplar") s = true ∧
      _stem ("kitaplar") = stripSuf ("kitaplar") s ∧
      ∀ s' ∈ _SUFFIXES, validStrip ("kitaplar") s' = true →
        s'.length ≤ s.length :=
  stem_spec.2.1 ("kitaplar") ("lar") (by decide) (by decide)

/-- C6: synonym expansion of the query token set `{"doktor"}` contains the
stemmed forms of `{"doktor", "hekim", "dr"}`; in general, for every query
token with a `SYNONYMS` entry the entry's stemmed members are added to the
expanded set; and expansion follows the static table per token — it is not
symmetric: `"dr"` is reached from `{"doktor"}` but not from `{"hekim"}`. -/
theorem expand_query_spec :
    (∀ (q : Finset String) (t : String), t ∈ q →
      ∀ x ∈ SYNONYMS t, _stem x ∈ expand_query_terms q) ∧
    (SYNONYMS ("doktor")).image _stem ⊆ expand_query_terms {"doktor"} ∧
    expand_query_terms {"doktor"} = {"doktor", "hekim", "dr"} ∧
    ("dr") ∈ expand_query_terms {"doktor"} ∧
    ("dr") ∉ expand_query_terms {"hekim"} := by
  refine ⟨?_, by decide, by decide, by decide, by decide⟩
  intro q t ht x hx
  exact Finset.mem_union_right _
    (Finset.mem_biUnion.mpr ⟨t, ht, Finset.mem_image_of_mem _ hx⟩)

theorem expand_query_spec_witness :
    _stem ("hekim") ∈ expand_query_terms ({"doktor"} : Finset String) :=
  expand_query_spec.1 {"doktor"} ("doktor") (by decide) ("hekim") (by decide)

/-- C10 (implicit): expanding the query `"doktor"` injects the token `"dr"`
of length ≤ 2 into the expanded query set even though `norm_tokens` discards
all tokens of length ≤ 2 from query and candidate texts alike; hence `"dr"`
enlarges the overlap denominator (the expanded set has 3 members against the
single query token) but can never match a candidate token, capping
`overlap_pct` below 100 (at ≤ 67) for every candidate text. -/
theorem synonym_short_token_overlap :
    ("dr") ∈ expand_query_terms (norm_tokens ("doktor")) ∧
    ("dr").length ≤ 2 ∧
    (∀ (s : String), ∀ t ∈ norm_tokens s, 2 < t.length) ∧
    (∀ s : String, ("dr") ∉ norm_tokens s) ∧
    (norm_tokens ("doktor")).card = 1 ∧
    (expand_query_terms (norm_tokens ("doktor"))).card = 3 ∧
    (∀ s : String,
      ((expand_query_terms (norm_tokens ("doktor"))) ∩ norm_tokens s).card ≤ 2) ∧
    (∀ s : String,
      overlapPct (expand_query_terms (norm_tokens ("doktor"))) (norm_tokens s)
        ≤ 67) := by
  have hlen : ∀ (s : String), ∀ t ∈ norm_tokens s, 2 < t.length := by
    intro s t ht
    exact (Finset.mem_filter.mp ht).2
  have hdr : ∀ s : String, ("dr") ∉ norm_tokens s := by
    intro s h
    have := hlen s _ h
    exact absurd this (by decide)
  have hcap : ∀ s : String,
      ((expand_query_terms (norm_tokens ("doktor"))) ∩ norm_tokens s).card ≤ 2 := by
    intro s
    have hsub : (expand_query_terms (norm_tokens ("doktor"))) ∩ norm_tokens s ⊆
        (expand_query_terms (norm_tokens ("doktor"))).erase ("dr") := by
      intro x hx
      rcases Finset.mem_inter.mp hx with ⟨hxe, hxt⟩
      refine Finset.mem_erase.mpr ⟨?_, hxe⟩
      rintro rfl
      exact hdr s hxt
    have := Finset.card_le_card hsub
    have herase :
        ((expand_query_terms (norm_tokens ("doktor"))).erase ("dr")).card = 2 := by
      decide
    omega
  refine ⟨by decide, by decide, hlen, hdr, by decide, by decide, hcap, ?_⟩
  intro s
  unfold overlapPct
  have hcard : (expand_query_terms (norm_tokens ("doktor"))).card = 3 := by decide
  rw [hcard]
  have hcnt := hcap s
  have hratio :
      (if (3 : ℕ) = 0 then (0 : ℚ)
        else (((expand_query_terms (norm_tokens ("doktor"))) ∩ norm_tokens s).card : ℚ)
          / ((3 : ℕ) : ℚ)) * 100 ≤ (67 : ℤ) := by
    rw [if_neg (by omega)]
    have h2 : (((expand_query_terms (norm_tokens ("doktor"))) ∩ norm_tokens s).card : ℚ)
        ≤ 2 := by exact_mod_cast hcnt
    push_cast
    linarith
  exact pyRound_le _ _ hratio

theorem synonym_short_token_overlap_witness :
    2 < ("doktor").length :=
  synonym_short_token_overlap.2.2.1 ("doktor") ("doktor") (by decide)

/-- A nonempty list has `isEmpty = false`. -/
theorem isEmpty_eq_false_of_ne_nil {l : List α} (h : l ≠ []) : l.isEmpty = false := by
  cases l with
  | nil => exact absurd rfl h
  | cons a as => rfl

/-- C8: `overlap_pct` equals `round(100 * |expanded ∩ candidate| / |expanded|)`
(0 for an empty expanded set), `final_score` equals
`round(0.6 * score_percent + 0.4 * overlap_pct)`, and the blend lies in
`[0,100]` whenever its two inputs do. -/
theorem overlap_blend_spec :
    (∀ qExp tToks : Finset String,
      overlapPct qExp tToks =
        if qExp = ∅ then 0
        else pyRound (100 * ((qExp ∩ tToks).card : ℚ) / (qExp.card : ℚ))) ∧
    (∀ sp op : ℤ, blendScore sp op =
      pyRound ((6/10 : ℚ) * (sp : ℚ) + (4/10 : ℚ) * (op : ℚ))) ∧
    (∀ sp op : ℤ, 0 ≤ sp → sp ≤ 100 → 0 ≤ op → op ≤ 100 →
      0 ≤ blendScore sp op ∧ blendScore sp op ≤ 100) := by
  refine ⟨?_, ?_, ?_⟩
  · intro qExp tToks
    show pyRound
        ((if qExp.card = 0 then (0 : ℚ)
          else ((qExp ∩ tToks).card : ℚ) / (qExp.card : ℚ)) * 100) = _
    by_cases h : qExp = ∅
    · rw [if_pos (by simp [h]), if_pos h]
      norm_num
      unfold pyRound
      norm_num
    · rw [if_neg (by simp [Finset.card_eq_zero, h]), if_neg h]
      congr 1
      ring
  · intro sp op
    show pyRound ((3/5 : ℚ) * (sp : ℚ) + (2/5 : ℚ) * (op : ℚ)) = _
    norm_num
  · intro sp op h1 h2 h3 h4
    have hsp0 : (0 : ℚ) ≤ (sp : ℚ) := by exact_mod_cast h1
    have hsp1 : (sp : ℚ) ≤ 100 := by exact_mod_cast h2
    have hop0 : (0 : ℚ) ≤ (op : ℚ) := by exact_mod_cast h3
    have hop1 : (op : ℚ) ≤ 100 := by exact_mod_cast h4
    constructor
    · exact le_pyRound _ 0 (by push_cast; linarith)
    · exact pyRound_le _ 100 (by push_cast; linarith)

theorem overlap_blend_spec_witness :
    (0 : ℤ) ≤ 55 ∧ (55 : ℤ) ≤ 100 ∧ (0 : ℤ) ≤ 30 ∧ (30 : ℤ) ≤ 100 ∧
    0 ≤ blendScore 55 30 ∧ blendScore 55 30 ≤ 100 :=
  ⟨by decide, by decide, by decide, by decide,
    (overlap_blend_spec.2.2 55 30 (by decide) (by decide) (by decide) (by decide)).1,
    (overlap_blend_spec.2.2 55 30 (by decide) (by decide) (by decide) (by decide)).2⟩

/-- C7 counterexample: with four candidates whose `final_score`s are
`[40, 30, 20, 10]` — all below the threshold 50 — the fallback returns all
four of them, `[40, 30, 20, 10]` (the code's fallback is top-5, not top-3),
refuting the claimed fallback result `[40, 30, 20]`. -/
theorem thresholdFallback_not_top3 :
    (thresholdFallback [mkCand 40, mkCand 30, mkCand 20, mkCand 10]).map
        (fun r => r.finalScore) = [40, 30, 20, 10] ∧
    (thresholdFallback [mkCand 40, mkCand 30, mkCand 20, mkCand 10]).map
        (fun r => r.finalScore) ≠ [40, 30, 20] := by
  constructor
  · decide
  · decide

/-- C7 (amended): threshold filtering keeps exactly the candidates with
`final_score ≥ 50`, and when every candidate falls below the threshold but
candidates exist, the fallback returns the top-5 (not top-3) candidates by
`final_score` instead of an empty result; with scores `[40, 55, 20, 10]` the
result is `[55]`, and with all of `[40, 30, 20, 10]` below threshold the
fallback returns all four, sorted descending: `[40, 30, 20, 10]`. -/
theorem thresholdFallback_spec :
    (∀ results : List Candidate,
      results.filter (fun r => decide (50 ≤ r.finalScore)) ≠ [] →
      thresholdFallback results =
        sortKeyDesc (fun r => r.finalScore)
          (results.filter (fun r => decide (50 ≤ r.finalScore)))) ∧
    (∀ results : List Candidate,
      results ≠ [] →
      results.filter (fun r => decide (50 ≤ r.finalScore)) = [] →
      thresholdFallback results =
        sortKeyDesc (fun r => r.finalScore)
          ((sortKeyDesc (fun r => r.finalScore) results).take 5) ∧
      thresholdFallback results ≠ []) ∧
    ((thresholdFallback [mkCand 40, mkCand 55, mkCand 20, mkCand 10]).map
        (fun r => r.finalScore) = [55]) ∧
    ((thresholdFallback [mkCand 40, mkCand 30, mkCand 20, mkCand 10]).map
        (fun r => r.finalScore) = [40, 30, 20, 10]) := by
  refine ⟨?_, ?_, by decide, by decide⟩
  · intro results hne
    show sortKeyDesc (fun r => r.finalScore)
        (if (results.filter (fun r => decide (50 ≤ r.finalScore))).isEmpty then
          (sortKeyDesc (fun r => r.finalScore) results).take 5
        else results.filter (fun r => decide (50 ≤ r.finalScore))) = _
    rw [isEmpty_eq_false_of_ne_nil hne]
    simp
  · intro results hne hf
    constructor
    · show sortKeyDesc (fun r => r.finalScore)
          (if (results.filter (fun r => decide (50 ≤ r.finalScore))).isEmpty then
            (sortKeyDesc (fun r => r.finalScore) results).take 5
          else results.filter (fun r => decide (50 ≤ r.finalScore))) = _
      rw [hf]
      simp
    · have hpos : 0 < results.length := List.length_pos.mpr hne
      have hlen : (thresholdFallback results).length =
          min 5 results.length := by
        show (sortKeyDesc (fun r => r.finalScore)
            (if (results.filter (fun r => decide (50 ≤ r.finalScore))).isEmpty then
              (sortKeyDesc (fun r => r.finalScore) results).take 5
            else results.filter (fun r => decide (50 ≤ r.finalScore)))).length = _
        rw [hf]
        simp [length_sortKeyDesc, List.length_take]
      apply List.length_pos.mp
      rw [hlen]
      omega

theorem thresholdFallback_spec_witness :
    thresholdFallback [mkCand 55] =
      sortKeyDesc (fun r => r.finalScore)
        ([mkCand 55].filter (fun r => decide (50 ≤ r.finalScore))) :=
  thresholdFallback_spec.1 [mkCand 55] (by decide)

/-- C9: the returned result list — threshold-surviving or fallback — is
sorted descending by `final_score`, and candidates of equal `final_score`
keep their original ANN rank order: for every score value, the result's
candidates of that score form an order-preserving sublist of the input's
candidates of that score. -/
theorem final_sort_spec :
    ∀ (results : List Candidate) (v : ℤ),
      (thresholdFallback results).Pairwise
        (fun a b => b.finalScore ≤ a.finalScore) ∧
      List.Sublist
        ((thresholdFallback results).filter (fun r => decide (r.finalScore = v)))
        (results.filter (fun r => decide (r.finalScore = v))) := by
  intro results v
  constructor
  · exact sorted_sortKeyDesc (fun r : Candidate => r.finalScore) _
  · show List.Sublist
        ((sortKeyDesc (fun r : Candidate => r.finalScore)
          (if (results.filter (fun r => decide (50 ≤ r.finalScore))).isEmpty then
            (sortKeyDesc (fun r : Candidate => r.finalScore) results).take 5
          else results.filter (fun r => decide (50 ≤ r.finalScore)))).filter
          (fun r => decide (r.finalScore = v)))
        (results.filter (fun r => decide (r.finalScore = v)))
    rw [filter_sortKeyDesc (fun r : Candidate => r.finalScore)]
    by_cases h : (results.filter (fun r => decide (50 ≤ r.finalScore))).isEmpty
    · rw [if_pos h]
      have h1 : List.Sublist
          (((sortKeyDesc (fun r : Candidate => r.finalScore) results).take 5).filter
            (fun r => decide (r.finalScore = v)))
          ((sortKeyDesc (fun r : Candidate => r.finalScore) results).filter
            (fun r => decide (r.finalScore = v))) :=
        List.Sublist.filter _ (List.take_sublist 5 _)
      rw [filter_sortKeyDesc (fun r : Candidate => r.finalScore)] at h1
      exact h1
    · rw [if_neg h]
      exact List.Sublist.filter _ (List.filter_sublist results)

/-- C2 counterexample: the `/search` route body (app.py lines 217-318) has
no exception handler, so with a faulting embedder and a concrete non-empty
query the route does not catch the fault and produces no outcome of its own
— no "search failed" page is ever built (`SearchResponse` has no failure
form at all): the result is the propagated exception itself, not an `ok`
outcome of any kind, refuting the claimed catch-and-convert at the pipeline
boundary. -/
theorem search_no_catch_counterexample :
    searchRoute (fun _ => Except.error ("embedder down")) (Except.ok ())
        (fun _ => Except.ok []) ("kalp doktoru") =
      Except.error ("embedder down") ∧
    (searchRoute (fun _ => Except.error ("embedder down")) (Except.ok ())
        (fun _ => Except.ok []) ("kalp doktoru")).isOk = false := by
  constructor
  · rfl
  · rfl

/-- C2 (amended): exceptions raised by the embedder or the vector store
during search are *not* caught at the search route boundary — the route has
no handler, so the fault propagates unhandled out of `searchRoute` (becoming
the web framework's error response, not a route-built "search failed" page);
consequently a backend fault never yields any successful outcome from the
route — in particular it is never conflated with an empty-but-successful
"no results" page. -/
theorem search_fault_spec :
    ∀ (embedQuery : String → Except String (List ℚ))
      (loadCollection : Except String Unit)
      (annSearch : List ℚ → Except String (List (List Hit)))
      (query e : String),
      query ≠ "" →
      (embedQuery query = Except.error e ∨
        (∃ v, embedQuery query = Except.ok v ∧ loadCollection = Except.error e) ∨
        (∃ v, embedQuery query = Except.ok v ∧ loadCollection = Except.ok () ∧
          annSearch v = Except.error e)) →
      searchRoute embedQuery loadCollection annSearch query = Except.error e ∧
      (∀ rows : List Candidate,
        searchRoute embedQuery loadCollection annSearch query ≠
          Except.ok (SearchResponse.page rows)) ∧
      (∀ resp : SearchResponse,
        searchRoute embedQuery loadCollection annSearch query ≠
          Except.ok resp) := by
  intro embedQuery loadCollection annSearch query e hq hcase
  have hroute : searchRoute embedQuery loadCollection annSearch query =
      Except.error e := by
    unfold searchRoute
    rw [if_neg hq]
    rcases hcase with h1 | ⟨v, h1, h2⟩ | ⟨v, h1, h2, h3⟩
    · simp only [h1]
    · simp only [h1, h2]
    · simp only [h1, h2, h3]
  refine ⟨hroute, fun rows h => ?_, fun resp h => ?_⟩
  · rw [hroute] at h
    exact Except.noConfusion h
  · rw [hroute] at h
    exact Except.noConfusion h

theorem search_fault_spec_witness :
    searchRoute (fun _ => Except.error ("backend down")) (Except.ok ())
        (fun _ => Except.ok []) ("doktor") = Except.error ("backend down") ∧
    (∀ rows : List Candidate,
      searchRoute (fun _ => Except.error ("backend down")) (Except.ok ())
          (fun _ => Except.ok []) ("doktor") ≠
        Except.ok (SearchResponse.page rows)) ∧
    (∀ resp : SearchResponse,
      searchRoute (fun _ => Except.error ("backend down")) (Except.ok ())
          (fun _ => Except.ok []) ("doktor") ≠ Except.ok resp) :=
  search_fault_spec _ _ _ _ _ (by decide) (Or.inl rfl)

/-- C1 counterexample: with a persisted 512-dimensional collection and the
active 768-dimensional embedder configuration, the startup block leaves the
collection exactly as it was — dimension 512, old documents still present —
instead of dropping and recreating it at dimension `VECTOR_DIM = 768`. -/
theorem startup_keeps_mismatched_collection :
    (startupInit (fun _ => []) (some coll512) (some [("yeni satır")])).dim = 512 ∧
    (512 : ℕ) ≠ VECTOR_DIM ∧
    startupInit (fun _ => []) (some coll512) (some [("yeni satır")]) = coll512 := by
  refine ⟨rfl, by decide, rfl⟩

/-- C1 (amended): the startup block performs no dimension reconciliation —
an existing collection is reused unchanged whatever its dimension (its
documents remain, so a dimension mismatch is *not* repaired); only when no
collection exists is one created, with the active dimension `VECTOR_DIM`,
seeded from the non-blank stripped lines of `initial_data.txt` when that
file is present. -/
theorem startupInit_spec :
    (∀ (embedDoc : String → List ℚ) (c : Collection) (seed : Option (List String)),
      startupInit embedDoc (some c) seed = c) ∧
    (∀ (embedDoc : String → List ℚ) (seed : Option (List String)),
      (startupInit embedDoc none seed).dim = VECTOR_DIM) ∧
    (∀ (embedDoc : String → List ℚ) (rawLines : List String),
      (startupInit embedDoc none (some rawLines)).docs =
        ((rawLines.map pyStrip).filter (fun l => l != "")).map
          (fun line =>
            { vector := embedDoc line, text := line,
              filename := "initial_data.txt" })) := by
  refine ⟨fun _ _ _ => rfl, fun embedDoc seed => ?_, fun _ _ => rfl⟩
  cases seed with
  | none => rfl
  | some rawLines => rfl
